import Mathlib

/-!
Shallow embedding of the protection-indicators dashboard (`src/app.py`).

The app loads one spreadsheet into a dataframe, filters it by camp / sex /
age range, computes summary statistics and Likert-indicator distributions,
and keeps a parallel in-session list of form entries exported as CSV.
Dataframe cells are numbers, strings, or missing (NaN); a row is modelled
as a total map from column names to cells, and a frame carries its column
list together with its rows.
-/

namespace Protection

/-- Cell values of the loaded spreadsheet: numeric, text, or missing (NaN). -/
inductive Cell where
  | num : Rat → Cell
  | str : String → Cell
  | missing : Cell
deriving DecidableEq

/-- One dataframe row: a total map from column name to cell value. -/
abbrev Row := String → Cell

/-- A dataframe: its column names and its rows (in order). -/
structure Frame where
  cols : List String
  rows : List Row

/-! ## Data loading (`load_data`, app.py:33-52) -/

/-- Strip leading and trailing spaces. -/
def trimChars (cs : List Char) : List Char :=
  ((cs.dropWhile (· == ' ')).reverse.dropWhile (· == ' ')).reverse

/-- Digit-string accumulation for numeric parsing. -/
def natOfDigitsAux : List Char → Nat → Option Nat
  | [], acc => some acc
  | c :: cs, acc =>
    if c.isDigit then natOfDigitsAux cs (acc * 10 + (c.toNat - 48)) else none

/-- A non-empty all-digit character list as a natural number. -/
def natOfDigits (cs : List Char) : Option Nat :=
  if cs.isEmpty then none else natOfDigitsAux cs 0

/-- A signed digit string as an integer. -/
def intOfChars (cs : List Char) : Option Int :=
  match cs with
  | '-' :: rest => (natOfDigits rest).map (fun n => -(n : Int))
  | _ => (natOfDigits cs).map (fun n => (n : Int))

/-- Split at the first `'.'`, when present. -/
def splitDotAux : List Char → List Char → (List Char × Option (List Char))
  | [], acc => (acc.reverse, none)
  | c :: cs, acc =>
    if c == '.' then (acc.reverse, some cs) else splitDotAux cs (c :: acc)

/-- Numeric parsing used by `pd.to_numeric`: optional sign, digits, optional
decimal part.  Values that do not parse are treated as non-numeric. -/
def parseNum (s : String) : Option Rat :=
  match splitDotAux (trimChars s.data) [] with
  | (intPart, none) => (intOfChars intPart).map (fun n => (n : Rat))
  | (intPart, some fracPart) =>
    if !fracPart.isEmpty && fracPart.all Char.isDigit then
      (intOfChars (intPart ++ fracPart)).map
        (fun m => mkRat m ((10 : Nat) ^ fracPart.length))
    else none

/-- `pd.to_numeric(errors="coerce")` on one cell: numbers kept, numeric
strings parsed, anything else coerced to missing; never raises. -/
def toNumericCoerce (c : Cell) : Cell :=
  match c with
  | Cell.num q => Cell.num q
  | Cell.str s =>
    match parseNum s with
    | some q => Cell.num q
    | none => Cell.missing
  | Cell.missing => Cell.missing

/-- Per-row age cleaning applied by `load_data` (app.py:49-50). -/
def cleanRow (r : Row) : Row :=
  fun c => if c = "Age :" then toNumericCoerce (r c) else r c

/-- `load_data` after the spreadsheet read: coerce the `"Age :"` column to
numeric when it exists, otherwise leave the frame unchanged. -/
def loadClean (f : Frame) : Frame :=
  if f.cols.contains "Age :" then Frame.mk f.cols (f.rows.map cleanRow) else f

/-! ## Filter engine (app.py:126-130) -/

/-- `Series.isin` against the multiselect sets (built from `dropna().unique()`,
so the selections are plain string values); a missing cell never matches. -/
def isinStr (c : Cell) (vs : List String) : Bool :=
  match c with
  | Cell.str s => vs.contains s
  | _ => false

/-- `Series.between` with inclusive integer slider bounds; a missing cell
never satisfies the predicate. -/
def betweenCell (c : Cell) (lo hi : Int) : Bool :=
  match c with
  | Cell.num q => decide ((lo : Rat) ≤ q ∧ q ≤ (hi : Rat))
  | _ => false

/-- Sequential filter application of the dashboard (app.py:126-130):
camp membership, then sex membership, then — when the age column exists and
the slider produced a range — the inclusive age range. -/
def applyFilters (data : List Row) (campF sexF : List String)
    (ageRange : Option (Int × Int)) : List Row :=
  match ageRange with
  | none =>
    (data.filter (fun r => isinStr (r "Camps :") campF)).filter
      (fun r => isinStr (r "Sexe :") sexF)
  | some p =>
    (((data.filter (fun r => isinStr (r "Camps :") campF)).filter
      (fun r => isinStr (r "Sexe :") sexF)).filter
      (fun r => betweenCell (r "Age :") p.1 p.2))

/-- Per-record age predicate of the filter: vacuously true when no age
column exists (so no range was offered). -/
def agePred (ageRange : Option (Int × Int)) (r : Row) : Bool :=
  match ageRange with
  | none => true
  | some p => betweenCell (r "Age :") p.1 p.2

/-! ## Indicator mapping (app.py:63-88) -/

/-- The configured (code, zero-based column position) pairs. -/
def INDICATOR_INDEXES : List (String × Nat) :=
  [("SDH1", 7), ("SDH2", 9), ("MEA1", 11), ("MEA2", 13),
   ("ACC1", 22), ("ACC2", 23), ("PEM1", 25), ("PEM2", 27)]

/-- Build `INDICATOR_COLUMNS` (app.py:75-78): keep exactly the codes whose
position is inside the column list, pairing them with that column's name. -/
def buildIndicatorColumns (idxs : List (String × Nat)) (cols : List String) :
    List (String × String) :=
  idxs.filterMap (fun p => (cols.get? p.2).map (fun name => (p.1, name)))

/-- The six canonical Likert levels (app.py:81-88). -/
def LIKERT_OPTIONS : List String :=
  ["Oui, complètement", "Plutôt oui", "Pas vraiment",
   "Pas du tout", "Ne sait pas", "Pas de réponse"]

/-! ## Aggregation engine (app.py:139-255) -/

/-- `value_counts().reindex(LIKERT_OPTIONS).fillna(0).astype(int)`
(app.py:218-224): one entry per canonical level, counting the rows whose
cell equals that level, zero when the level is unobserved. -/
def indicatorDistribution (df : List Row) (colname : String) :
    List (String × Nat) :=
  LIKERT_OPTIONS.map
    (fun opt => (opt, df.countP (fun r => decide (r colname = Cell.str opt))))

/-- Number of rows whose cell in the given column is missing. -/
def countMissing (df : List Row) (colname : String) : Nat :=
  df.countP (fun r => decide (r colname = Cell.missing))

/-- A cell drawn from the canonical Likert domain, or missing. -/
def likertOrMissing (c : Cell) : Bool :=
  match c with
  | Cell.missing => true
  | Cell.str s => LIKERT_OPTIONS.contains s
  | Cell.num _ => false

/-- `sex_counts.get("Masculin", 0)` and `.get("Féminin", 0)` (app.py:153-156):
the ordered pair of counts of the two binary sex categories. -/
def sexCountsMF (df : List Row) : Nat × Nat :=
  (df.countP (fun r => decide (r "Sexe :" = Cell.str "Masculin")),
   df.countP (fun r => decide (r "Sexe :" = Cell.str "Féminin")))

/-- A displayed metric: a numeric value, or the degraded "N/A" state. -/
inductive Metric where
  | na : Metric
  | value : Rat → Metric
deriving DecidableEq

/-- Python `round` to an integer: round half to even. -/
def roundHalfEven (x : Rat) : Int :=
  let n : Int := x.floor
  let frac : Rat := x - (n : Rat)
  if frac < 1 / 2 then n
  else if 1 / 2 < frac then n + 1
  else if n % 2 = 0 then n else n + 1

/-- Python `round(x, 1)`. -/
def roundTo1 (x : Rat) : Rat := ((roundHalfEven (x * 10) : Int) : Rat) / 10

/-- The numeric (non-missing) values of a column. -/
def numericValues (cells : List Cell) : List Rat :=
  cells.filterMap (fun c =>
    match c with
    | Cell.num q => some q
    | _ => none)

/-- pandas `Series.mean` (skips missing; NaN when nothing is numeric). -/
def seriesMean (cells : List Cell) : Cell :=
  let qs := numericValues cells
  if qs.isEmpty then Cell.missing else Cell.num (qs.sum / (qs.length : Rat))

/-- pandas `Series.min` (skips missing; NaN when nothing is numeric). -/
def seriesMin (cells : List Cell) : Cell :=
  match numericValues cells with
  | [] => Cell.missing
  | q :: qs => Cell.num (qs.foldl min q)

/-- pandas `Series.max` (skips missing; NaN when nothing is numeric). -/
def seriesMax (cells : List Cell) : Cell :=
  match numericValues cells with
  | [] => Cell.missing
  | q :: qs => Cell.num (qs.foldl max q)

/-- Average-age metric (app.py:147-150): rounded mean when the age column
exists, "N/A" otherwise. -/
def meanAgeMetric (cols : List String) (df : List Row) : Metric :=
  if cols.contains "Age :" then
    match seriesMean (df.map (fun r => r "Age :")) with
    | Cell.num q => Metric.value (roundTo1 q)
    | _ => Metric.na
  else Metric.na

/-- Case-insensitive containment of the affirmative token `"Oui"`
(`str.contains("Oui", case=False)`). -/
def containsOui (s : String) : Bool :=
  ((s.toLower).splitOn "oui").length != 1

/-- `astype(str)` on one cell: strings kept, numbers printed, missing
becomes the literal string `"nan"`. -/
def astypeStr (c : Cell) : String :=
  match c with
  | Cell.str s => s
  | Cell.num q => toString q
  | Cell.missing => "nan"

/-- The PBS column variant actually consulted (app.py:159-162): the name
with the trailing space when present, otherwise the name without it. -/
def resolvePbsCol (cols : List String) : String :=
  if cols.contains "PBS : " then "PBS : " else "PBS :"

/-- Number of rows whose stringified cell contains the affirmative token. -/
def countOui (col : String) (df : List Row) : Nat :=
  df.countP (fun r => containsOui (astypeStr (r col)))

/-- Disability-rate metric (app.py:159-172): the affirmative fraction of the
resolved PBS column, as a percentage rounded to one decimal; "N/A" when
neither column variant exists. -/
def disabilityRate (cols : List String) (df : List Row) : Metric :=
  let pbsCol := resolvePbsCol cols
  if cols.contains pbsCol then
    Metric.value (roundTo1 (100 * ((countOui pbsCol df : Rat) / (df.length : Rat))))
  else Metric.na

/-! ## Dashboard assembly (app.py:99-255) -/

/-- The indicator section: a warning when the mapping is empty
(app.py:205-206), otherwise the charts for the (default-selected, i.e.
first) indicator of the mapping. -/
inductive IndicatorView where
  | warning : IndicatorView
  | charts : String → List (String × Nat) → IndicatorView
deriving DecidableEq

/-- Render the indicator section of the dashboard for a filtered frame. -/
def renderIndicatorSection (imap : List (String × String)) (df : List Row) :
    IndicatorView :=
  match imap with
  | [] => IndicatorView.warning
  | p :: _ => IndicatorView.charts p.1 (indicatorDistribution df p.2)

/-- The key figures and dependent views computed below the empty-filter
guard (value-count chart ordering is not modelled; no claim depends on it). -/
structure KeyFigures where
  total : Nat
  avgAge : Metric
  ratioMF : Nat × Nat
  pbs : Metric
  indicators : IndicatorView

/-- The dashboard body after filtering: either the "no records" warning
with `st.stop()` (app.py:134-136), or the computed statistics. -/
inductive DashboardView where
  | noRecords : DashboardView
  | stats : KeyFigures → DashboardView

/-- Render the dashboard body on the filtered rows. -/
def renderDashboard (cols : List String) (imap : List (String × String))
    (df : List Row) : DashboardView :=
  if df.length = 0 then DashboardView.noRecords
  else
    DashboardView.stats
      (KeyFigures.mk df.length (meanAgeMetric cols df) (sexCountsMF df)
        (disabilityRate cols df) (renderIndicatorSection imap df))

/-! ## Default age-range bounds (app.py:116-121) -/

/-- Python `int()` on a float: truncation toward zero. -/
def truncToInt (q : Rat) : Int := if q < 0 then q.ceil else q.floor

/-- Python `int()` on a cell: fails on anything that is not a number
(`int(nan)` raises `ValueError`). -/
def intOfCell (c : Cell) : Except String Int :=
  match c with
  | Cell.num q => Except.ok (truncToInt q)
  | _ => Except.error "cannot convert to integer"

/-- Whether an `Except` computation failed. -/
def isError {α : Type} (e : Except String α) : Bool :=
  match e with
  | Except.error _ => true
  | Except.ok _ => false

/-- The age cells of a frame. -/
def ageColumn (f : Frame) : List Cell := f.rows.map (fun r => r "Age :")

/-- Default slider bounds (app.py:117-118): `int(min)` and `int(max)` of the
age column; raises when either is missing. -/
def ageRangeDefaults (cells : List Cell) : Except String (Int × Int) :=
  match intOfCell (seriesMin cells), intOfCell (seriesMax cells) with
  | Except.ok lo, Except.ok hi => Except.ok (lo, hi)
  | Except.error e, _ => Except.error e
  | _, Except.error e => Except.error e

/-! ## Cell classifications used by the claims about loading -/

/-- A cell that is a number or missing (any number, integral or not). -/
def isNumOrMissing (c : Cell) : Bool :=
  match c with
  | Cell.str _ => false
  | _ => true

/-- A cell that is an integer-valued number or missing. -/
def isIntOrMissing (c : Cell) : Bool :=
  match c with
  | Cell.num q => q.den == 1
  | Cell.missing => true
  | Cell.str _ => false

/-! ## Concrete data used to instantiate hypotheses -/

/-- A row with a missing age and fixed camp/sex labels. -/
def rowMissingAge : Row :=
  fun c =>
    if c = "Camps :" then Cell.str "A"
    else if c = "Sexe :" then Cell.str "Masculin"
    else if c = "Age :" then Cell.missing
    else Cell.str "x"

/-- A row whose every cell is the canonical level `"Plutôt oui"`. -/
def rowLikert : Row := fun _ => Cell.str "Plutôt oui"

/-- A row whose every cell is the off-domain answer `"Autre"`. -/
def rowOffDomain : Row := fun _ => Cell.str "Autre"

/-- A row answering `"Oui"` everywhere (affirmative PBS field). -/
def rowOui : Row := fun _ => Cell.str "Oui"

/-- A row whose age cell holds the non-integer number 5/2. -/
def rowHalfAge : Row :=
  fun c => if c = "Age :" then Cell.num (mkRat 5 2) else Cell.str "x"

/-- A one-row frame whose age column holds 5/2. -/
def frameHalf : Frame := Frame.mk ["Age :"] [rowHalfAge]

/-- A row whose every cell is the non-numeric string `"abc"`. -/
def rowStrAge : Row := fun _ => Cell.str "abc"

/-- A one-row frame whose age column holds a non-numeric string. -/
def frameStrAge : Frame := Frame.mk ["Age :"] [rowStrAge]

/-- A frame with the age column present but only non-numeric age values,
so every age is missing after loading. -/
def frameAllMissing : Frame :=
  Frame.mk ["Camps :", "Sexe :", "Age :"] [rowStrAge]

/-! ## Session record store and CSV export (app.py:281-358)

`df.to_csv(index=False)` emits a header line and one line per row,
`'\n'`-terminated, with minimal quoting: a field containing a comma, a
quote, or a line break is wrapped in double quotes with inner quotes
doubled.  Re-parsing follows the same convention (blank lines skipped). -/

/-- Characters that force a CSV field to be quoted. -/
def specialChar (c : Char) : Bool :=
  c == ',' || c == '"' || c == '\n' || c == '\r'

/-- Whether a field requires quoting under minimal quoting. -/
def needsQuote (s : String) : Bool := s.data.any specialChar

/-- Double every inner quote of a quoted field body. -/
def escQ : List Char → List Char
  | [] => []
  | c :: cs => if c == '"' then '"' :: '"' :: escQ cs else c :: escQ cs

/-- Serialize one field under minimal quoting. -/
def fieldChars (s : String) : List Char :=
  if needsQuote s then '"' :: (escQ s.data ++ ['"']) else s.data

/-- Serialize one row as a comma-separated line (without the newline). -/
def lineChars : List String → List Char
  | [] => []
  | [f] => fieldChars f
  | f :: fs => fieldChars f ++ ',' :: lineChars fs

/-- Serialize a table: each row's line followed by a newline. -/
def tableChars : List (List String) → List Char
  | [] => []
  | r :: rs => lineChars r ++ '\n' :: tableChars rs

/-- `to_csv(index=False)` on a table of string fields. -/
def toCsv (tbl : List (List String)) : String := String.mk (tableChars tbl)

/-- Scanner state of the CSV reader. -/
inductive ScanMode where
  | rowStart
  | fieldStart
  | plain
  | quoted
  | afterQ
deriving DecidableEq

/-- CSV scanner: input characters, current state, current field (reversed),
fields already finished in the current row; returns the parsed rows. -/
def scanCsv : List Char → ScanMode → List Char → List String → List (List String)
  | [], m, acc, row =>
    match m with
    | ScanMode.rowStart => []
    | _ => [row ++ [String.mk acc.reverse]]
  | c :: cs, ScanMode.rowStart, _, _ =>
    if c == '\n' then scanCsv cs ScanMode.rowStart [] []
    else if c == '"' then scanCsv cs ScanMode.quoted [] []
    else if c == ',' then scanCsv cs ScanMode.fieldStart [] [""]
    else scanCsv cs ScanMode.plain [c] []
  | c :: cs, ScanMode.fieldStart, _, row =>
    if c == '"' then scanCsv cs ScanMode.quoted [] row
    else if c == ',' then scanCsv cs ScanMode.fieldStart [] (row ++ [""])
    else if c == '\n' then (row ++ [""]) :: scanCsv cs ScanMode.rowStart [] []
    else scanCsv cs ScanMode.plain [c] row
  | c :: cs, ScanMode.plain, acc, row =>
    if c == ',' then scanCsv cs ScanMode.fieldStart [] (row ++ [String.mk acc.reverse])
    else if c == '\n' then
      (row ++ [String.mk acc.reverse]) :: scanCsv cs ScanMode.rowStart [] []
    else scanCsv cs ScanMode.plain (c :: acc) row
  | c :: cs, ScanMode.quoted, acc, row =>
    if c == '"' then scanCsv cs ScanMode.afterQ acc row
    else scanCsv cs ScanMode.quoted (c :: acc) row
  | c :: cs, ScanMode.afterQ, acc, row =>
    if c == '"' then scanCsv cs ScanMode.quoted ('"' :: acc) row
    else if c == ',' then scanCsv cs ScanMode.fieldStart [] (row ++ [String.mk acc.reverse])
    else if c == '\n' then
      (row ++ [String.mk acc.reverse]) :: scanCsv cs ScanMode.rowStart [] []
    else scanCsv cs ScanMode.quoted (c :: acc) row

/-- `pd.read_csv` on an exported table: parse all rows. -/
def parseCsv (s : String) : List (List String) :=
  scanCsv s.data ScanMode.rowStart [] []

/-- One form submission (app.py:331-340): the fixed demographic fields plus
one Likert answer per mapped indicator code, in mapping order. -/
structure SessionRecord where
  nom : String
  camp : String
  sexe : String
  age : Int
  pbs : String
  submissionTime : String
  comments : String
  answers : List String

/-- Column headers of the session table: the fixed keys of `new_record`
followed by the indicator codes. -/
def baseHeader : List String :=
  ["Nom", "Camps :", "Sexe :", "Age :", "PBS :", "submission_time", "comments"]

/-- The CSV row of one session record. -/
def toRow (rec : SessionRecord) : List String :=
  [rec.nom, rec.camp, rec.sexe, toString rec.age, rec.pbs,
   rec.submissionTime, rec.comments] ++ rec.answers

/-- `st.session_state["new_responses"].append(new_record)` (app.py:341). -/
def appendRecord (store : List SessionRecord) (rec : SessionRecord) :
    List SessionRecord :=
  store ++ [rec]

/-- `pd.DataFrame(...).to_csv(index=False)` of the session store
(app.py:349-352). -/
def exportCsv (codes : List String) (store : List SessionRecord) : String :=
  toCsv ((baseHeader ++ codes) :: store.map toRow)

/-! ## General counting lemmas -/

theorem countP_add_of_disjoint {α : Type} (l : List α) (p q : α → Bool)
    (h : ∀ a ∈ l, ¬(p a = true ∧ q a = true)) :
    l.countP (fun a => p a || q a) = l.countP p + l.countP q := by
  induction l with
  | nil => simp
  | cons x xs ih =>
    have hx := h x (by simp)
    have hxs : ∀ a ∈ xs, ¬(p a = true ∧ q a = true) :=
      fun a ha => h a (by simp [ha])
    by_cases hp : p x = true
    · by_cases hq : q x = true
      · exact absurd ⟨hp, hq⟩ hx
      · simp [List.countP_cons, hp, hq, ih hxs]
        omega
    · by_cases hq : q x = true
      · simp [List.countP_cons, hp, hq, ih hxs]
        omega
      · simp [List.countP_cons, hp, hq, ih hxs]

/-! ## C1 -/

/-- C1: for every source record set and every filter selection (camp subset,
sex subset, inclusive integer age range), the filtered view is an
order-preserving subset of the source, and a record is a member exactly when
its camp is among the selected camps, its sex among the selected sexes, and
its age lies in the selected range (vacuously when no age column exists, in
which case no range is passed). -/
theorem filteredView_subset_and_membership (data : List Row)
    (campF sexF : List String) (ageRange : Option (Int × Int)) :
    (applyFilters data campF sexF ageRange).Sublist data ∧
    ∀ r : Row, r ∈ applyFilters data campF sexF ageRange ↔
      r ∈ data ∧ isinStr (r "Camps :") campF = true ∧
        isinStr (r "Sexe :") sexF = true ∧ agePred ageRange r = true := by
  cases ageRange with
  | none =>
    refine ⟨(List.filter_sublist _).trans (List.filter_sublist _), ?_⟩
    intro r
    simp only [applyFilters, List.mem_filter, agePred, and_true]
    tauto
  | some p =>
    refine ⟨((List.filter_sublist _).trans (List.filter_sublist _)).trans
      (List.filter_sublist _), ?_⟩
    intro r
    simp only [applyFilters, List.mem_filter, agePred]
    tauto

/-! ## C9 -/

/-- C9: whenever the age-range predicate is applied (the dataset has an age
column, so a range was passed), a record whose age cell is missing is
excluded from the filtered view for every selected range. -/
theorem missingAge_excluded (data : List Row) (campF sexF : List String)
    (lo hi : Int) (r : Row) (h : r "Age :" = Cell.missing) :
    r ∉ applyFilters data campF sexF (some (lo, hi)) := by
  intro hmem
  have hpred := (List.mem_filter.mp hmem).2
  rw [h] at hpred
  simp [betweenCell] at hpred

/-- C9 witness: a concrete missing-age record is excluded even by the full
range 0–99. -/
theorem missingAge_excluded_witness :
    rowMissingAge ∉
      applyFilters [rowMissingAge] ["A"] ["Masculin"] (some (0, 99)) :=
  missingAge_excluded [rowMissingAge] ["A"] ["Masculin"] 0 99 rowMissingAge
    (by decide)

/-! ## C3 -/

/-- C3: for every filter selection whose filtered result is empty, the
dashboard body is the "no records" state: no key figure, ratio, or chart
value is computed (the `noRecords` state carries none of them). -/
theorem emptyFilter_noRecords (cols : List String)
    (imap : List (String × String)) (data : List Row)
    (campF sexF : List String) (ageRange : Option (Int × Int))
    (h : (applyFilters data campF sexF ageRange).length = 0) :
    renderDashboard cols imap (applyFilters data campF sexF ageRange) =
      DashboardView.noRecords := by
  simp [renderDashboard, h]

/-- C3 witness: filtering an empty source yields the "no records" state. -/
theorem emptyFilter_noRecords_witness :
    renderDashboard ["Camps :"] [] (applyFilters [] ["A"] ["Masculin"] none) =
      DashboardView.noRecords :=
  emptyFilter_noRecords ["Camps :"] [] [] ["A"] ["Masculin"] none rfl

/-! ## C4 -/

/-- C4: a code is present in the built indicator map iff its configured
position is strictly below the dataset's column count (out-of-range codes
are dropped by the total map-building function, with no error state), and
when the resulting map is empty the indicator section renders the warning
instead of any chart. -/
theorem indicatorMap_membership_and_emptyWarning
    (idxs : List (String × Nat)) (cols : List String) (df : List Row)
    (code : String) :
    ((∃ name, (code, name) ∈ buildIndicatorColumns idxs cols) ↔
      ∃ i, (code, i) ∈ idxs ∧ i < cols.length) ∧
    renderIndicatorSection [] df = IndicatorView.warning := by
  refine ⟨?_, rfl⟩
  constructor
  · rintro ⟨name, hmem⟩
    rw [buildIndicatorColumns, List.mem_filterMap] at hmem
    obtain ⟨⟨c, i⟩, hp, heq⟩ := hmem
    cases hg : cols.get? i with
    | none => rw [hg] at heq; simp at heq
    | some nm =>
      rw [hg] at heq
      have heq2 : (c, nm) = (code, name) := by simpa using heq
      have hc : c = code := congrArg Prod.fst heq2
      subst hc
      exact ⟨i, hp, (List.get?_eq_some.mp hg).1⟩
  · rintro ⟨i, hi, hlt⟩
    refine ⟨cols.get ⟨i, hlt⟩, ?_⟩
    rw [buildIndicatorColumns, List.mem_filterMap]
    exact ⟨(code, i), hi, by rw [List.get?_eq_get hlt]; rfl⟩

/-! ## C5 -/

/-- C5: `sex_ratio` is the ordered pair (count "Masculin", count "Féminin");
the components sum to at most the record count, with equality exactly when
every record's sex cell is one of the two binary categories (any other or
unspecified sex value breaks equality). -/
theorem sexCounts_sum_le_total (df : List Row) :
    (sexCountsMF df).1 + (sexCountsMF df).2 ≤ df.length ∧
    ((sexCountsMF df).1 + (sexCountsMF df).2 = df.length ↔
      ∀ r ∈ df, r "Sexe :" = Cell.str "Masculin" ∨
        r "Sexe :" = Cell.str "Féminin") := by
  have hdisj : ∀ r ∈ df,
      ¬(decide (r "Sexe :" = Cell.str "Masculin") = true ∧
        decide (r "Sexe :" = Cell.str "Féminin") = true) := by
    intro r _ ⟨h1, h2⟩
    simp only [decide_eq_true_eq] at h1 h2
    rw [h1] at h2
    simp at h2
  have hsum := countP_add_of_disjoint df
    (fun r => decide (r "Sexe :" = Cell.str "Masculin"))
    (fun r => decide (r "Sexe :" = Cell.str "Féminin")) hdisj
  constructor
  · show df.countP _ + df.countP _ ≤ df.length
    rw [← hsum]
    exact List.countP_le_length _
  · show df.countP _ + df.countP _ = df.length ↔ _
    rw [← hsum]
    rw [List.countP_eq_length]
    constructor
    · intro h r hr
      have := h r hr
      simpa using this
    · intro h r hr
      simpa using h r hr

/-! ## C7 -/

/-- C7: the disability rate is "N/A" exactly when neither literal PBS
column variant exists; otherwise it is the fraction of records whose
stringified PBS field contains the affirmative token (case-insensitively),
as a percentage rounded to one decimal, the column being resolved by trying
the trailing-space variant first and the plain variant second. -/
theorem disabilityRate_fallback (cols : List String) (df : List Row)
    (h : df ≠ []) :
    disabilityRate cols df =
      (if cols.contains "PBS : " then
        Metric.value (roundTo1
          (100 * ((countOui "PBS : " df : Rat) / (df.length : Rat))))
       else if cols.contains "PBS :" then
        Metric.value (roundTo1
          (100 * ((countOui "PBS :" df : Rat) / (df.length : Rat))))
       else Metric.na) ∧
    (disabilityRate cols df = Metric.na ↔
      (cols.contains "PBS : " = false ∧ cols.contains "PBS :" = false)) := by
  by_cases h1 : "PBS : " ∈ cols <;> by_cases h2 : "PBS :" ∈ cols <;>
    simp [disabilityRate, resolvePbsCol, h1, h2]

/-- C7 witness: a one-record subset with only the plain `"PBS :"` column
resolves to that column and reports its rounded percentage. -/
theorem disabilityRate_fallback_witness :
    disabilityRate ["PBS :"] [rowOui] =
      (if (["PBS :"] : List String).contains "PBS : " then
        Metric.value (roundTo1
          (100 * ((countOui "PBS : " [rowOui] : Rat) /
            (([rowOui] : List Row).length : Rat))))
       else if (["PBS :"] : List String).contains "PBS :" then
        Metric.value (roundTo1
          (100 * ((countOui "PBS :" [rowOui] : Rat) /
            (([rowOui] : List Row).length : Rat))))
       else Metric.na) ∧
    (disabilityRate ["PBS :"] [rowOui] = Metric.na ↔
      ((["PBS :"] : List String).contains "PBS : " = false ∧
        (["PBS :"] : List String).contains "PBS :" = false)) :=
  disabilityRate_fallback ["PBS :"] [rowOui] (List.cons_ne_nil _ _)

/-! ## C2 -/

/-- Summing the per-level counts over distinct levels counts the rows whose
cell matches any of the levels. -/
theorem sum_map_countP (opts : List String) (h : opts.Nodup) (df : List Row)
    (colname : String) :
    (opts.map (fun o => df.countP (fun r => decide (r colname = Cell.str o)))).sum
      = df.countP (fun r => opts.any (fun o => decide (r colname = Cell.str o))) := by
  induction opts with
  | nil => simp
  | cons o os ih =>
    obtain ⟨ho, hos⟩ := List.nodup_cons.mp h
    simp only [List.map_cons, List.sum_cons, ih hos]
    have hdisj : ∀ r ∈ df,
        ¬(decide (r colname = Cell.str o) = true ∧
          (os.any (fun o2 => decide (r colname = Cell.str o2))) = true) := by
      intro r _ ⟨h1, h2⟩
      simp only [decide_eq_true_eq] at h1
      rw [List.any_eq_true] at h2
      obtain ⟨o2, ho2, hh⟩ := h2
      simp only [decide_eq_true_eq] at hh
      rw [h1] at hh
      have ho12 : o = o2 := Cell.str.inj hh
      exact ho (ho12 ▸ ho2)
    rw [← countP_add_of_disjoint df _ _ hdisj]
    apply List.countP_congr
    intro r _
    simp [List.any_cons]

/-- C2 counterexample: a one-record subset whose indicator value is the
non-missing, off-domain string `"Autre"` has six counts summing to 0, while
its size minus its missing values is 1. -/
theorem indicatorDistribution_sum_counterexample :
    ((indicatorDistribution [rowOffDomain] "Q").map Prod.snd).sum ≠
      (([rowOffDomain] : List Row).length - countMissing [rowOffDomain] "Q") := by
  decide

/-- C2 (amended): for every record subset the indicator distribution has
exactly six entries, one per canonical Likert level in order, each carrying
the count of rows equal to that level (so unobserved levels are reported as
zero); and — whenever every value of the column is canonical or missing —
the six counts sum to the size of the subset minus its missing values. -/
theorem indicatorDistribution_amended (df : List Row) (colname : String) :
    (indicatorDistribution df colname).length = 6 ∧
    (indicatorDistribution df colname).map Prod.fst = LIKERT_OPTIONS ∧
    (∀ opt cnt, (opt, cnt) ∈ indicatorDistribution df colname →
      cnt = df.countP (fun r => decide (r colname = Cell.str opt))) ∧
    (df.all (fun r => likertOrMissing (r colname)) = true →
      ((indicatorDistribution df colname).map Prod.snd).sum =
        df.length - countMissing df colname) := by
  refine ⟨by simp [indicatorDistribution, LIKERT_OPTIONS], ?_, ?_, ?_⟩
  · simp only [indicatorDistribution, List.map_map]
    rfl
  · intro opt cnt hmem
    rw [indicatorDistribution] at hmem
    obtain ⟨o, -, heq⟩ := List.mem_map.mp hmem
    have h1 : o = opt := congrArg Prod.fst heq
    have h2 : df.countP (fun r => decide (r colname = Cell.str o)) = cnt :=
      congrArg Prod.snd heq
    rw [← h2, h1]
  · intro h
    have hmap : (indicatorDistribution df colname).map Prod.snd =
        LIKERT_OPTIONS.map
          (fun o => df.countP (fun r => decide (r colname = Cell.str o))) := by
      simp [indicatorDistribution, List.map_map]
    rw [hmap, sum_map_countP LIKERT_OPTIONS (by decide) df colname]
    have hall : ∀ r ∈ df, likertOrMissing (r colname) = true :=
      List.all_eq_true.mp h
    have hdisj : ∀ r ∈ df,
        ¬((LIKERT_OPTIONS.any (fun o => decide (r colname = Cell.str o))) = true ∧
          decide (r colname = Cell.missing) = true) := by
      intro r _ ⟨h1, h2⟩
      simp only [decide_eq_true_eq] at h2
      rw [List.any_eq_true] at h1
      obtain ⟨o, -, hh⟩ := h1
      simp only [decide_eq_true_eq] at hh
      rw [h2] at hh
      cases hh
    have hsplit := countP_add_of_disjoint df _ _ hdisj
    have hlen : df.countP
        (fun r => (LIKERT_OPTIONS.any (fun o => decide (r colname = Cell.str o))) ||
          decide (r colname = Cell.missing)) = df.length := by
      rw [List.countP_eq_length]
      intro r hr
      have hlm := hall r hr
      cases hc : r colname with
      | missing => simp
      | num q => rw [hc] at hlm; simp [likertOrMissing] at hlm
      | str s =>
        rw [hc] at hlm
        have hs : s ∈ LIKERT_OPTIONS := by simpa [likertOrMissing] using hlm
        simp only [Bool.or_eq_true, List.any_eq_true]
        exact Or.inl ⟨s, hs, by simp⟩
    have hcm : countMissing df colname =
        df.countP (fun r => decide (r colname = Cell.missing)) := rfl
    rw [hcm]
    exact Nat.eq_sub_of_add_eq (hsplit.symm.trans hlen)

/-- C2 witness: a one-record subset with the canonical answer
`"Plutôt oui"` satisfies the amended statement, with the sum clause's
all-canonical-or-missing hypothesis discharged concretely. -/
theorem indicatorDistribution_amended_witness :
    (indicatorDistribution [rowLikert] "Q").length = 6 ∧
    (indicatorDistribution [rowLikert] "Q").map Prod.fst = LIKERT_OPTIONS ∧
    ((indicatorDistribution [rowLikert] "Q").map Prod.snd).sum =
      ([rowLikert] : List Row).length - countMissing [rowLikert] "Q" := by
  have h := indicatorDistribution_amended [rowLikert] "Q"
  exact ⟨h.1, h.2.1, h.2.2.2 (by decide)⟩

/-! ## C6 -/

/-- C6 counterexample: a dataset whose age cell is the number 5/2 loads to
an age that is neither integer-valued nor missing. -/
theorem ageCoercion_counterexample :
    ageColumn (loadClean frameHalf) = [Cell.num (mkRat 5 2)] ∧
    isIntOrMissing (Cell.num (mkRat 5 2)) = false := by
  decide

/-- Coercion always yields a number or a missing cell. -/
theorem toNumericCoerce_numOrMissing (c : Cell) :
    isNumOrMissing (toNumericCoerce c) = true := by
  cases c with
  | num q => rfl
  | missing => rfl
  | str s =>
    simp only [toNumericCoerce]
    cases parseNum s <;> rfl

/-- C6 (amended): when the age column exists, loading coerces every
non-numeric age to missing and never raises (the coercion is a total
function), so after load every age cell is a number or missing — but not
necessarily integer-valued. -/
theorem ageCoercion_amended (f : Frame) (h : f.cols.contains "Age :" = true)
    (r : Row) (hr : r ∈ (loadClean f).rows) :
    isNumOrMissing (r "Age :") = true := by
  simp only [loadClean, h, if_true] at hr
  obtain ⟨r0, -, rfl⟩ := List.mem_map.mp hr
  have : cleanRow r0 "Age :" = toNumericCoerce (r0 "Age :") := by
    simp [cleanRow]
  rw [this]
  exact toNumericCoerce_numOrMissing _

/-- C6 witness: the loaded version of a row whose age was the non-numeric
string `"abc"` carries a number-or-missing age cell. -/
theorem ageCoercion_amended_witness :
    isNumOrMissing ((cleanRow rowStrAge) "Age :") = true :=
  ageCoercion_amended frameStrAge (by decide) (cleanRow rowStrAge)
    (List.mem_cons_self _ _)

/-! ## C10 -/

/-- C10: a dataset that has the age column but only non-numeric age values
(all coerced to missing at load) makes the default age-range computation
fail — `int()` of a missing minimum/maximum is an error, so the dashboard
page errors rather than entering the degraded "N/A" mode. -/
theorem allMissingAges_defaults_error :
    frameAllMissing.cols.contains "Age :" = true ∧
    ageColumn (loadClean frameAllMissing) = [Cell.missing] ∧
    isError (ageRangeDefaults (ageColumn (loadClean frameAllMissing))) = true := by
  decide


/-! ## CSV round-trip lemmas (for C8) -/

/-- Rebuilding a string from its characters is the identity. -/
theorem mk_data (s : String) : String.mk s.data = s := rfl

/-- A field that needs no quoting contains no comma, quote, or line break. -/
theorem not_special_of_needsQuote_false {f : String}
    (h : needsQuote f = false) :
    ∀ c ∈ f.data, c ≠ ',' ∧ c ≠ '"' ∧ c ≠ '\n' := by
  intro c hc
  have hs := List.any_eq_false.mp h c hc
  simp only [specialChar, Bool.or_eq_true, beq_iff_eq] at hs
  push_neg at hs
  exact ⟨hs.1.1.1, hs.1.1.2, hs.1.2⟩

/-- Scanning an unquoted field body stays in plain mode, accumulating it. -/
theorem scan_plain_run (fs : List Char) :
    ∀ (rest acc : List Char) (row : List String),
    (∀ c ∈ fs, c ≠ ',' ∧ c ≠ '\n') →
    scanCsv (fs ++ rest) ScanMode.plain acc row =
      scanCsv rest ScanMode.plain (fs.reverse ++ acc) row := by
  induction fs with
  | nil => intro rest acc row _; simp
  | cons c cs ih =>
    intro rest acc row h
    have hc := h c (by simp)
    have hcs : ∀ x ∈ cs, x ≠ ',' ∧ x ≠ '\n' := fun x hx => h x (by simp [hx])
    simp only [List.cons_append]
    rw [show scanCsv (c :: (cs ++ rest)) ScanMode.plain acc row =
        scanCsv (cs ++ rest) ScanMode.plain (c :: acc) row by
      simp [scanCsv, hc.1, hc.2]]
    rw [ih rest (c :: acc) row hcs]
    simp

/-- Scanning an escaped quoted body up to its closing quote accumulates the
original body and ends in the after-quote state. -/
theorem scan_quoted_run (fs : List Char) :
    ∀ (rest acc : List Char) (row : List String),
    scanCsv (escQ fs ++ '"' :: rest) ScanMode.quoted acc row =
      scanCsv rest ScanMode.afterQ (fs.reverse ++ acc) row := by
  induction fs with
  | nil => intro rest acc row; simp [escQ, scanCsv]
  | cons c cs ih =>
    intro rest acc row
    by_cases hc : c = '"'
    · subst hc
      rw [show escQ ('"' :: cs) = '"' :: '"' :: escQ cs by simp [escQ]]
      simp only [List.cons_append]
      rw [show scanCsv ('"' :: ('"' :: (escQ cs ++ '"' :: rest)))
            ScanMode.quoted acc row =
          scanCsv (escQ cs ++ '"' :: rest) ScanMode.quoted ('"' :: acc) row by
        simp [scanCsv]]
      rw [ih rest ('"' :: acc) row]
      simp
    · rw [show escQ (c :: cs) = c :: escQ cs by simp [escQ, hc]]
      simp only [List.cons_append]
      rw [show scanCsv (c :: (escQ cs ++ '"' :: rest)) ScanMode.quoted acc row =
          scanCsv (escQ cs ++ '"' :: rest) ScanMode.quoted (c :: acc) row by
        simp [scanCsv, hc]]
      rw [ih rest (c :: acc) row]
      simp

/-- Consuming an unquoted field body followed by a comma finishes the field. -/
theorem scan_plainfield_comma (d : List Char)
    (hchars : ∀ c ∈ d, c ≠ ',' ∧ c ≠ '"' ∧ c ≠ '\n')
    (rest : List Char) (row : List String) :
    scanCsv (d ++ ',' :: rest) ScanMode.fieldStart [] row =
      scanCsv rest ScanMode.fieldStart [] (row ++ [String.mk d]) := by
  cases d with
  | nil => simp [scanCsv]
  | cons c cs =>
    have hc := hchars c (by simp)
    have hcs : ∀ x ∈ cs, x ≠ ',' ∧ x ≠ '\n' := by
      intro x hx
      have := hchars x (by simp [hx])
      exact ⟨this.1, this.2.2⟩
    simp only [List.cons_append]
    rw [show scanCsv (c :: (cs ++ ',' :: rest)) ScanMode.fieldStart [] row =
        scanCsv (cs ++ ',' :: rest) ScanMode.plain [c] row by
      simp [scanCsv, hc.1, hc.2.1, hc.2.2]]
    rw [scan_plain_run cs (',' :: rest) [c] row hcs]
    rw [show scanCsv (',' :: rest) ScanMode.plain (cs.reverse ++ [c]) row =
        scanCsv rest ScanMode.fieldStart []
          (row ++ [String.mk (cs.reverse ++ [c]).reverse]) by
      simp [scanCsv]]
    simp

/-- Consuming an unquoted field body followed by a newline finishes the row. -/
theorem scan_plainfield_newline (d : List Char)
    (hchars : ∀ c ∈ d, c ≠ ',' ∧ c ≠ '"' ∧ c ≠ '\n')
    (rest : List Char) (row : List String) :
    scanCsv (d ++ '\n' :: rest) ScanMode.fieldStart [] row =
      (row ++ [String.mk d]) :: scanCsv rest ScanMode.rowStart [] [] := by
  cases d with
  | nil => simp [scanCsv]
  | cons c cs =>
    have hc := hchars c (by simp)
    have hcs : ∀ x ∈ cs, x ≠ ',' ∧ x ≠ '\n' := by
      intro x hx
      have := hchars x (by simp [hx])
      exact ⟨this.1, this.2.2⟩
    simp only [List.cons_append]
    rw [show scanCsv (c :: (cs ++ '\n' :: rest)) ScanMode.fieldStart [] row =
        scanCsv (cs ++ '\n' :: rest) ScanMode.plain [c] row by
      simp [scanCsv, hc.1, hc.2.1, hc.2.2]]
    rw [scan_plain_run cs ('\n' :: rest) [c] row hcs]
    rw [show scanCsv ('\n' :: rest) ScanMode.plain (cs.reverse ++ [c]) row =
        (row ++ [String.mk (cs.reverse ++ [c]).reverse]) ::
          scanCsv rest ScanMode.rowStart [] [] by
      simp [scanCsv]]
    simp

/-- Consuming one serialized field followed by a comma finishes the field. -/
theorem scan_field_comma (f : String) (rest : List Char) (row : List String) :
    scanCsv (fieldChars f ++ ',' :: rest) ScanMode.fieldStart [] row =
      scanCsv rest ScanMode.fieldStart [] (row ++ [f]) := by
  by_cases hq : needsQuote f = true
  · rw [show fieldChars f = '"' :: (escQ f.data ++ ['"']) by
      simp [fieldChars, hq]]
    simp only [List.cons_append, List.append_assoc, List.singleton_append,
      List.nil_append]
    rw [show scanCsv ('"' :: (escQ f.data ++ '"' :: ',' :: rest))
          ScanMode.fieldStart [] row =
        scanCsv (escQ f.data ++ '"' :: ',' :: rest) ScanMode.quoted [] row by
      simp [scanCsv]]
    rw [scan_quoted_run f.data (',' :: rest) [] row]
    rw [show scanCsv (',' :: rest) ScanMode.afterQ (f.data.reverse ++ []) row =
        scanCsv rest ScanMode.fieldStart []
          (row ++ [String.mk (f.data.reverse ++ []).reverse]) by
      simp [scanCsv]]
    simp [mk_data]
  · have hq2 : needsQuote f = false := by simpa using hq
    rw [show fieldChars f = f.data by simp [fieldChars, hq2]]
    rw [scan_plainfield_comma f.data (not_special_of_needsQuote_false hq2)
      rest row]

/-- Consuming one serialized field followed by a newline finishes the row. -/
theorem scan_field_newline (f : String) (rest : List Char)
    (row : List String) :
    scanCsv (fieldChars f ++ '\n' :: rest) ScanMode.fieldStart [] row =
      (row ++ [f]) :: scanCsv rest ScanMode.rowStart [] [] := by
  by_cases hq : needsQuote f = true
  · rw [show fieldChars f = '"' :: (escQ f.data ++ ['"']) by
      simp [fieldChars, hq]]
    simp only [List.cons_append, List.append_assoc, List.singleton_append,
      List.nil_append]
    rw [show scanCsv ('"' :: (escQ f.data ++ '"' :: '\n' :: rest))
          ScanMode.fieldStart [] row =
        scanCsv (escQ f.data ++ '"' :: '\n' :: rest) ScanMode.quoted [] row by
      simp [scanCsv]]
    rw [scan_quoted_run f.data ('\n' :: rest) [] row]
    rw [show scanCsv ('\n' :: rest) ScanMode.afterQ (f.data.reverse ++ []) row =
        (row ++ [String.mk (f.data.reverse ++ []).reverse]) ::
          scanCsv rest ScanMode.rowStart [] [] by
      simp [scanCsv]]
    simp [mk_data]
  · have hq2 : needsQuote f = false := by simpa using hq
    rw [show fieldChars f = f.data by simp [fieldChars, hq2]]
    rw [scan_plainfield_newline f.data (not_special_of_needsQuote_false hq2)
      rest row]

/-- Scanning a whole serialized line from the field-start state yields the
row's fields and resumes at the next row. -/
theorem scan_fields (fs : List String) :
    ∀ (f : String) (rest : List Char) (row : List String),
    scanCsv (lineChars (f :: fs) ++ '\n' :: rest) ScanMode.fieldStart [] row =
      (row ++ f :: fs) :: scanCsv rest ScanMode.rowStart [] [] := by
  induction fs with
  | nil =>
    intro f rest row
    rw [show lineChars [f] = fieldChars f by rfl]
    exact scan_field_newline f rest row
  | cons f2 fs2 ih =>
    intro f rest row
    rw [show lineChars (f :: f2 :: fs2) =
        fieldChars f ++ ',' :: lineChars (f2 :: fs2) by rfl]
    simp only [List.append_assoc, List.cons_append]
    rw [scan_field_comma f (lineChars (f2 :: fs2) ++ '\n' :: rest) row]
    rw [ih f2 rest (row ++ [f])]
    simp

/-- On a non-newline first character, the row-start state behaves like a
fresh field-start state. -/
theorem scan_rowStart_eq (c : Char) (cs acc : List Char) (row : List String)
    (h : c ≠ '\n') :
    scanCsv (c :: cs) ScanMode.rowStart acc row =
      scanCsv (c :: cs) ScanMode.fieldStart [] [] := by
  by_cases h1 : c = '"'
  · subst h1; simp [scanCsv]
  · by_cases h2 : c = ','
    · subst h2; simp [scanCsv]
    · simp [scanCsv, h, h1, h2]

/-- A serialized line of at least two fields starts with a non-newline
character. -/
theorem lineChars_ne_newline (f f2 : String) (fs : List String) :
    ∃ c cs, lineChars (f :: f2 :: fs) = c :: cs ∧ c ≠ '\n' := by
  have hl : lineChars (f :: f2 :: fs) =
      fieldChars f ++ ',' :: lineChars (f2 :: fs) := rfl
  by_cases hq : needsQuote f = true
  · refine ⟨'"', escQ f.data ++ ['"'] ++ ',' :: lineChars (f2 :: fs), ?_,
      by decide⟩
    rw [hl]
    simp [fieldChars, hq, List.append_assoc]
  · have hq2 : needsQuote f = false := by simpa using hq
    have hchars := not_special_of_needsQuote_false hq2
    cases hd : f.data with
    | nil =>
      refine ⟨',', lineChars (f2 :: fs), ?_, by decide⟩
      rw [hl]
      simp [fieldChars, hq2, hd]
    | cons c cs =>
      have hc := hchars c (by rw [hd]; simp)
      refine ⟨c, cs ++ ',' :: lineChars (f2 :: fs), ?_, hc.2.2⟩
      rw [hl]
      simp [fieldChars, hq2, hd]

/-- Scanning a serialized table of rows with at least two fields each
recovers exactly the rows. -/
theorem scan_table (tbl : List (List String)) :
    (∀ r ∈ tbl, 2 ≤ r.length) →
    scanCsv (tableChars tbl) ScanMode.rowStart [] [] = tbl := by
  induction tbl with
  | nil => intro _; simp [tableChars, scanCsv]
  | cons r rs ih =>
    intro h
    have hr := h r (by simp)
    have hrs : ∀ x ∈ rs, 2 ≤ x.length := fun x hx => h x (by simp [hx])
    cases r with
    | nil => simp at hr
    | cons f r1 =>
      cases r1 with
      | nil => simp at hr
      | cons f2 fs =>
        rw [show tableChars ((f :: f2 :: fs) :: rs) =
            lineChars (f :: f2 :: fs) ++ '\n' :: tableChars rs by rfl]
        obtain ⟨c, cs, hline, hc⟩ := lineChars_ne_newline f f2 fs
        rw [hline]
        simp only [List.cons_append]
        rw [scan_rowStart_eq c (cs ++ '\n' :: tableChars rs) [] [] hc]
        rw [show (c :: (cs ++ '\n' :: tableChars rs) : List Char) =
            (c :: cs) ++ '\n' :: tableChars rs by simp]
        rw [← hline]
        rw [scan_fields (f2 :: fs) f (tableChars rs) []]
        rw [ih hrs]
        simp

/-- Parsing an exported table whose rows all have at least two fields
recovers the table exactly. -/
theorem parse_toCsv (tbl : List (List String))
    (h : ∀ r ∈ tbl, 2 ≤ r.length) : parseCsv (toCsv tbl) = tbl := by
  rw [parseCsv]
  rw [show (toCsv tbl).data = tableChars tbl by rfl]
  exact scan_table tbl h

/-- The indicator answers occupy the columns after the seven fixed ones. -/
theorem toRow_drop_seven (rec : SessionRecord) :
    (toRow rec).drop 7 = rec.answers := by
  simp [toRow]

/-- Every session row has at least the seven fixed columns. -/
theorem toRow_length (rec : SessionRecord) : 2 ≤ (toRow rec).length := by
  simp [toRow]

/-! ## C8 -/

/-- C8: appending places each record at the end of the session sequence, and
exporting the session store then re-parsing the CSV yields the header plus
exactly one row per appended record in insertion order, with the indicator
answers of each parsed row equal to the answers that were appended. -/
theorem sessionStore_roundTrip (codes : List String)
    (store : List SessionRecord) (rec : SessionRecord) :
    (parseCsv (exportCsv codes (appendRecord store rec))).drop 1 =
      store.map toRow ++ [toRow rec] ∧
    ((parseCsv (exportCsv codes store)).drop 1).length = store.length ∧
    ((parseCsv (exportCsv codes store)).drop 1).map (fun row => row.drop 7) =
      store.map SessionRecord.answers := by
  have harity : ∀ (st : List SessionRecord),
      ∀ r ∈ (baseHeader ++ codes) :: st.map toRow, 2 ≤ r.length := by
    intro st r hr
    cases List.mem_cons.mp hr with
    | inl h1 => subst h1; simp [baseHeader]
    | inr h2 =>
      obtain ⟨rec2, -, rfl⟩ := List.mem_map.mp h2
      exact toRow_length rec2
  have hparse : ∀ (st : List SessionRecord),
      parseCsv (exportCsv codes st) = (baseHeader ++ codes) :: st.map toRow :=
    fun st => parse_toCsv _ (harity st)
  refine ⟨?_, ?_, ?_⟩
  · rw [hparse (appendRecord store rec)]
    simp [appendRecord]
  · rw [hparse store]
    simp
  · rw [hparse store]
    simp only [List.drop_succ_cons, List.drop_zero]
    simp [List.map_map, toRow_drop_seven, Function.comp]

end Protection
